import Mathlib

/-!
# Verification of the `companion-service` crate

A shallow embedding of `src/lib.rs` and the counter service of
`tests/sanity.rs`.  Each Rust service object owns its private mutable state;
we model a service as a record of pure transition functions over a state
type `σ`, a registry entry as a service paired with its current state, and
the process-wide registry `SERVICES` as a list of entries.  The toplevel
functions `start`, `stop`, `restart` and the `ctor`/`dtor` hooks `init` and
`deinit` are translated from the source loops as structural recursions over
the entry list.
-/

namespace CompanionService

/-- Embedding of the Rust `Service` trait (`src/lib.rs`).  `name` is the
filter key (`fn name(&self) -> &str`, pure and stable per the contract);
`startImpl` and `stopImpl` are the state transitions performed by
`fn start(&self)` and `fn stop(&self)` on the object's own state; a service
that overrides the provided `fn restart(&self)` carries its replacement in
`restartOverride`, while `none` selects the trait's default body. -/
structure Service (σ : Type) where
  name : String
  startImpl : σ → σ
  stopImpl : σ → σ
  restartOverride : Option (σ → σ)

/-- `Service::start`: apply the implementor's start transition. -/
def Service.start (s : Service σ) : σ → σ :=
  s.startImpl

/-- `Service::stop`: apply the implementor's stop transition. -/
def Service.stop (s : Service σ) : σ → σ :=
  s.stopImpl

/-- `Service::restart`, default body `{ self.stop(); self.start(); }`
unless the implementor overrides it. -/
def Service.restart (s : Service σ) (st : σ) : σ :=
  match s.restartOverride with
  | some f => f st
  | none => s.startImpl (s.stopImpl st)

/-- One registry slot: a service object together with the current value of
its private state (`&'static (dyn Service + Sync)` plus whatever interior
state the object holds). -/
structure Entry (σ : Type) where
  service : Service σ
  state : σ

/-- `pub fn start(name: &str)` (`src/lib.rs:69-75`): scan the registry in
order and call `Service::start` on every entry whose name equals `name`. -/
def start (name : String) : List (Entry σ) → List (Entry σ)
  | [] => []
  | e :: rest =>
    (if e.service.name == name then { e with state := e.service.start e.state } else e)
      :: start name rest

/-- `pub fn stop(name: &str)` (`src/lib.rs:78-84`): same traversal,
invoking `Service::stop`. -/
def stop (name : String) : List (Entry σ) → List (Entry σ)
  | [] => []
  | e :: rest =>
    (if e.service.name == name then { e with state := e.service.stop e.state } else e)
      :: stop name rest

/-- `pub fn restart(name: &str)` (`src/lib.rs:87-93`): same traversal,
invoking `Service::restart`. -/
def restart (name : String) : List (Entry σ) → List (Entry σ)
  | [] => []
  | e :: rest =>
    (if e.service.name == name then { e with state := e.service.restart e.state } else e)
      :: restart name rest

/-- The `#[ctor] fn init()` bootstrap hook (`src/lib.rs:95-100`): call
`Service::start` on every entry, unconditionally, in registry order. -/
def init : List (Entry σ) → List (Entry σ)
  | [] => []
  | e :: rest => { e with state := e.service.start e.state } :: init rest

/-- The `#[dtor] fn deinit()` teardown hook (`src/lib.rs:102-107`): call
`Service::stop` on every entry, unconditionally, in registry order. -/
def deinit : List (Entry σ) → List (Entry σ)
  | [] => []
  | e :: rest => { e with state := e.service.stop e.state } :: deinit rest

/-- A record of one dynamic call performed on a registry entry, identified
by the entry's position in the registry. -/
inductive Call where
  | startCall (idx : Nat)
  | stopCall (idx : Nat)
  | restartCall (idx : Nat)
deriving DecidableEq, Repr

/-- Traced form of the `init` bootstrap hook beginning at position `i`. -/
def initTracedFrom (i : Nat) : List (Entry σ) → List (Entry σ) × List Call
  | [] => ([], [])
  | e :: rest =>
    let r := initTracedFrom (i + 1) rest
    ({ e with state := e.service.start e.state } :: r.1, Call.startCall i :: r.2)

/-- Traced form of the `init` bootstrap hook. -/
def initTraced (entries : List (Entry σ)) : List (Entry σ) × List Call :=
  initTracedFrom 0 entries

/-- Traced form of the `deinit` teardown hook beginning at position `i`. -/
def deinitTracedFrom (i : Nat) : List (Entry σ) → List (Entry σ) × List Call
  | [] => ([], [])
  | e :: rest =>
    let r := deinitTracedFrom (i + 1) rest
    ({ e with state := e.service.stop e.state } :: r.1, Call.stopCall i :: r.2)

/-- Traced form of the `deinit` teardown hook. -/
def deinitTraced (entries : List (Entry σ)) : List (Entry σ) × List Call :=
  deinitTracedFrom 0 entries

/-- A call log local to one service object, distinguishing its own `start`
and `stop` methods. -/
inductive SCall where
  | startC
  | stopC
deriving DecidableEq, Repr

/-- Instrument a service so that its state also accumulates the sequence of
`start`/`stop` method calls the object receives.  An overridden `restart`
runs the override on the underlying state and is logged as no primitive
call, since its body is opaque to the trait. -/
def Service.instrument (s : Service σ) : Service (σ × List SCall) :=
  { name := s.name
    startImpl := fun p => (s.startImpl p.1, p.2 ++ [SCall.startC])
    stopImpl := fun p => (s.stopImpl p.1, p.2 ++ [SCall.stopC])
    restartOverride := s.restartOverride.map (fun f p => (f p.1, p.2)) }

/-- The `TestService` of `tests/sanity.rs`: state is an integer counter,
`start` increments it, `stop` decrements it, `restart` is the trait
default. -/
def counterService (nm : String) : Service Int :=
  { name := nm
    startImpl := fun c => c + 1
    stopImpl := fun c => c - 1
    restartOverride := none }

/-- The three toplevel lifecycle operations, as data. -/
inductive Op where
  | startOp
  | stopOp
  | restartOp
deriving DecidableEq, Repr

/-- The per-entry effect of each operation. -/
def applyOp : Op → Service σ → σ → σ
  | Op.startOp => Service.start
  | Op.stopOp => Service.stop
  | Op.restartOp => Service.restart

/-- The toplevel function each operation denotes. -/
def dispatch : Op → String → List (Entry σ) → List (Entry σ)
  | Op.startOp => start
  | Op.stopOp => stop
  | Op.restartOp => restart

/-- The log record of one invocation of each operation's service method. -/
def opCall : Op → Nat → Call
  | Op.startOp => Call.startCall
  | Op.stopOp => Call.stopCall
  | Op.restartOp => Call.restartCall

/-- Traced form of the toplevel lifecycle loop beginning at registry
position `i`: returns the updated suffix together with the log of service
method invocations, in the order the loop performs them. -/
def runTracedFrom (op : Op) (name : String) (i : Nat) :
    List (Entry σ) → List (Entry σ) × List Call
  | [] => ([], [])
  | e :: rest =>
    let r := runTracedFrom op name (i + 1) rest
    if e.service.name == name then
      ({ e with state := applyOp op e.service e.state } :: r.1, opCall op i :: r.2)
    else
      (e :: r.1, r.2)

/-- Traced form of a toplevel lifecycle call over the whole registry. -/
def runTraced (op : Op) (name : String) (entries : List (Entry σ)) :
    List (Entry σ) × List Call :=
  runTracedFrom op name 0 entries

/-- Relational (big-step) semantics of one toplevel lifecycle call: the
loop walks the registry front to back, transforming each matching entry by
the operation's effect and leaving each non-matching entry untouched. -/
inductive RunRel (op : Op) (name : String) :
    List (Entry σ) → List (Entry σ) → Prop where
  | nil : RunRel op name [] []
  | consHit (e : Entry σ) {rest rest' : List (Entry σ)} :
      e.service.name = name → RunRel op name rest rest' →
      RunRel op name (e :: rest)
        ({ e with state := applyOp op e.service e.state } :: rest')
  | consSkip (e : Entry σ) {rest rest' : List (Entry σ)} :
      e.service.name ≠ name → RunRel op name rest rest' →
      RunRel op name (e :: rest) (e :: rest')

/-- The per-entry transformer of the `start` loop. -/
def startStep (name : String) (e : Entry σ) : Entry σ :=
  if e.service.name == name then { e with state := e.service.start e.state } else e

/-- The per-entry transformer of the `stop` loop. -/
def stopStep (name : String) (e : Entry σ) : Entry σ :=
  if e.service.name == name then { e with state := e.service.stop e.state } else e

/-- The per-entry transformer of the `restart` loop. -/
def restartStep (name : String) (e : Entry σ) : Entry σ :=
  if e.service.name == name then { e with state := e.service.restart e.state } else e

theorem start_eq_map (name : String) (entries : List (Entry σ)) :
    start name entries = entries.map (startStep name) := by
  induction entries with
  | nil => rfl
  | cons e rest ih => simp [start, startStep, ih]

theorem stop_eq_map (name : String) (entries : List (Entry σ)) :
    stop name entries = entries.map (stopStep name) := by
  induction entries with
  | nil => rfl
  | cons e rest ih => simp [stop, stopStep, ih]

theorem restart_eq_map (name : String) (entries : List (Entry σ)) :
    restart name entries = entries.map (restartStep name) := by
  induction entries with
  | nil => rfl
  | cons e rest ih => simp [restart, restartStep, ih]

theorem init_eq_map (entries : List (Entry σ)) :
    init entries = entries.map (fun e => { e with state := e.service.start e.state }) := by
  induction entries with
  | nil => rfl
  | cons e rest ih => simp [init, ih]

theorem deinit_eq_map (entries : List (Entry σ)) :
    deinit entries = entries.map (fun e => { e with state := e.service.stop e.state }) := by
  induction entries with
  | nil => rfl
  | cons e rest ih => simp [deinit, ih]

/-- The per-entry transformer of each operation's loop. -/
def opStep (op : Op) (name : String) (e : Entry σ) : Entry σ :=
  if e.service.name == name then { e with state := applyOp op e.service e.state } else e

theorem dispatch_eq_map (op : Op) (name : String) (entries : List (Entry σ)) :
    dispatch op name entries = entries.map (opStep op name) := by
  cases op with
  | startOp => exact start_eq_map name entries
  | stopOp => exact stop_eq_map name entries
  | restartOp => exact restart_eq_map name entries

theorem runTracedFrom_fst (op : Op) (name : String) (i : Nat)
    (entries : List (Entry σ)) :
    (runTracedFrom op name i entries).1 = dispatch op name entries := by
  induction entries generalizing i with
  | nil => cases op <;> rfl
  | cons e rest ih =>
    rw [dispatch_eq_map] at ih ⊢
    by_cases h : e.service.name == name <;>
      simp [runTracedFrom, opStep, h, ih]

theorem runTracedFrom_snd (op : Op) (name : String) (i : Nat)
    (entries : List (Entry σ)) :
    (runTracedFrom op name i entries).2 =
      ((entries.enumFrom i).filter (fun p => p.2.service.name == name)).map
        (fun p => opCall op p.1) := by
  induction entries generalizing i with
  | nil => rfl
  | cons e rest ih =>
    by_cases h : e.service.name == name <;>
      simp [runTracedFrom, List.enumFrom, List.filter, h, ih]

theorem initTracedFrom_fst (i : Nat) (entries : List (Entry σ)) :
    (initTracedFrom i entries).1 = init entries := by
  induction entries generalizing i with
  | nil => rfl
  | cons e rest ih => simp [initTracedFrom, init, ih]

theorem initTracedFrom_snd (i : Nat) (entries : List (Entry σ)) :
    (initTracedFrom i entries).2 =
      (List.range' i entries.length).map Call.startCall := by
  induction entries generalizing i with
  | nil => rfl
  | cons e rest ih => simp [initTracedFrom, List.range', ih]

theorem deinitTracedFrom_fst (i : Nat) (entries : List (Entry σ)) :
    (deinitTracedFrom i entries).1 = deinit entries := by
  induction entries generalizing i with
  | nil => rfl
  | cons e rest ih => simp [deinitTracedFrom, deinit, ih]

theorem deinitTracedFrom_snd (i : Nat) (entries : List (Entry σ)) :
    (deinitTracedFrom i entries).2 =
      (List.range' i entries.length).map Call.stopCall := by
  induction entries generalizing i with
  | nil => rfl
  | cons e rest ih => simp [deinitTracedFrom, List.range', ih]

/-- A concrete two-entry registry used to exercise the theorems: two
counter services named `"a"` and `"b"` with counters `0` and `5`. -/
def demoReg : List (Entry Int) :=
  [{ service := counterService "a", state := 0 },
   { service := counterService "b", state := 5 }]

/-- C1: each toplevel lifecycle call `dispatch op name` invokes the
corresponding service method exactly once on each registry entry whose
`name()` equals the argument (the invocation log is exactly the filtered
entry positions, in registry order), leaves every entry with a different
name unchanged, and transforms every matching entry by that single method
call; `op` ranges over `start`, `stop` and `restart`, which perform the
identical traversal. -/
theorem toplevel_name_filter (op : Op) (name : String) (entries : List (Entry σ)) :
    (runTraced op name entries).1 = dispatch op name entries ∧
    (runTraced op name entries).2 =
      (entries.enum.filter (fun p => p.2.service.name == name)).map
        (fun p => opCall op p.1) ∧
    (∀ (i : Nat) (e : Entry σ), entries[i]? = some e → e.service.name ≠ name →
      (dispatch op name entries)[i]? = some e) ∧
    (∀ (i : Nat) (e : Entry σ), entries[i]? = some e → e.service.name = name →
      (dispatch op name entries)[i]? =
        some { e with state := applyOp op e.service e.state }) := by
  refine ⟨runTracedFrom_fst op name 0 entries, ?_, ?_, ?_⟩
  · rw [runTraced, runTracedFrom_snd, List.enum]
  · intro i e hget hne
    rw [dispatch_eq_map, List.getElem?_map, hget]
    simp [opStep, hne]
  · intro i e hget heq
    rw [dispatch_eq_map, List.getElem?_map, hget]
    simp [opStep, heq]

/-- Witness for C1 at a concrete registry: `start "a"` on `demoReg` leaves
the entry named `"b"` untouched. -/
theorem toplevel_name_filter_witness :
    (dispatch Op.startOp "a" demoReg)[1]? =
      some { service := counterService "b", state := (5 : Int) } :=
  (toplevel_name_filter Op.startOp "a" demoReg).2.2.1 1
    { service := counterService "b", state := (5 : Int) } rfl (by decide)

/-- C2: the bootstrap hook calls `start()` exactly once on every registry
entry, unconditionally and in registry order: the invocation log is exactly
`startCall` at positions `0, 1, …, length - 1`, and every entry ends with
`start` applied once to its state. -/
theorem bootstrap_hook (entries : List (Entry σ)) :
    (initTraced entries).1 = init entries ∧
    (initTraced entries).2 = (List.range entries.length).map Call.startCall ∧
    ∀ (i : Nat) (e : Entry σ), entries[i]? = some e →
      (init entries)[i]? = some { e with state := e.service.start e.state } := by
  refine ⟨initTracedFrom_fst 0 entries, ?_, ?_⟩
  · rw [initTraced, initTracedFrom_snd, List.range_eq_range']
  · intro i e hget
    rw [init_eq_map, List.getElem?_map, hget]
    rfl

/-- Witness for C2: the bootstrap hook on `demoReg` starts the first
counter, taking it from 0 to 1. -/
theorem bootstrap_hook_witness :
    (init demoReg)[0]? = some { service := counterService "a", state := (1 : Int) } := by
  have h := (bootstrap_hook demoReg).2.2 0
    { service := counterService "a", state := (0 : Int) } rfl
  simpa [counterService, Service.start] using h

/-- C3: the teardown hook calls `stop()` exactly once on every registry
entry, unconditionally and in registry order, whatever states the entries
were left in by earlier manual calls: the invocation log is exactly
`stopCall` at positions `0, 1, …, length - 1`, and every entry ends with
`stop` applied once more to its current state. -/
theorem teardown_hook (entries : List (Entry σ)) :
    (deinitTraced entries).1 = deinit entries ∧
    (deinitTraced entries).2 = (List.range entries.length).map Call.stopCall ∧
    ∀ (i : Nat) (e : Entry σ), entries[i]? = some e →
      (deinit entries)[i]? = some { e with state := e.service.stop e.state } := by
  refine ⟨deinitTracedFrom_fst 0 entries, ?_, ?_⟩
  · rw [deinitTraced, deinitTracedFrom_snd, List.range_eq_range']
  · intro i e hget
    rw [deinit_eq_map, List.getElem?_map, hget]
    rfl

/-- Witness for C3 on a registry whose first service was already manually
stopped: the teardown hook stops it again, driving its counter from -1 to
-2. -/
theorem teardown_hook_witness :
    (deinit (stop "a" demoReg))[0]? =
      some { service := counterService "a", state := (-2 : Int) } := by
  have h := (teardown_hook (stop "a" demoReg)).2.2 0
    { service := counterService "a", state := (0 : Int) - 1 } (by rfl)
  have h2 : (counterService "a").stop ((0 : Int) - 1) = (-2 : Int) := by
    norm_num [counterService, Service.stop]
  rw [h2] at h
  exact h

/-- C4: for a service that does not override `restart()`, one `restart()`
call performs exactly one `stop()` immediately followed by exactly one
`start()` on that service, sequentially, and nothing else: the instrumented
call log is exactly `[stopC, startC]` and the final state is
`start (stop st)`. -/
theorem default_restart (s : Service σ) (st : σ) (h : s.restartOverride = none) :
    (s.instrument).restart (st, []) =
      (s.startImpl (s.stopImpl st), [SCall.stopC, SCall.startC]) := by
  simp [Service.restart, Service.instrument, h]

/-- Witness for C4: the counter service restarted from 3 receives exactly
one stop then one start and ends back at 3. -/
theorem default_restart_witness :
    ((counterService "x").instrument).restart (3, []) =
      ((3 : Int), [SCall.stopC, SCall.startC]) := by
  have h := default_restart (counterService "x") (3 : Int) rfl
  have h2 : ((counterService "x").startImpl ((counterService "x").stopImpl 3)) = (3 : Int) := by
    simp [counterService]
  rw [h2] at h
  exact h

/-- C5: for a counter-based service (state is an integer counter, `start`
increments, `stop` decrements, default `restart`) placed anywhere in any
registry, the toplevel `restart name` leaves that service's counter at the
value it had immediately before the call, for every name and every counter
value. -/
theorem restart_counter_neutral (pre post : List (Entry Int)) (nm name : String)
    (c : Int) :
    (restart name (pre ++ { service := counterService nm, state := c } :: post))[pre.length]? =
      some { service := counterService nm, state := c } := by
  have hx : (pre ++ ({ service := counterService nm, state := c } : Entry Int) :: post)[pre.length]? =
      some { service := counterService nm, state := c } := by
    rw [List.getElem?_append_right (le_refl pre.length)]
    simp
  rw [restart_eq_map, List.getElem?_map, hx]
  by_cases h : nm == name
  · simp [restartStep, Service.restart, counterService, h, Int.sub_add_cancel]
  · simp [restartStep, counterService, h]

/-- C6: a name with no matching registry entry (the empty registry
included) makes `start`, `stop` and `restart` no-ops: every entry is left
unchanged and no error value exists to be signalled (the operations are
total functions into registries). -/
theorem no_match_noop (name : String) (entries : List (Entry σ))
    (h : ∀ e ∈ entries, e.service.name ≠ name) :
    start name entries = entries ∧ stop name entries = entries ∧
      restart name entries = entries := by
  have key : ∀ op : Op, dispatch op name entries = entries := by
    intro op
    rw [dispatch_eq_map]
    induction entries with
    | nil => rfl
    | cons e rest ih =>
      simp only [List.map_cons]
      rw [ih (fun x hx => h x (List.mem_cons_of_mem e hx))]
      simp [opStep, h e (List.mem_cons_self e rest)]
  exact ⟨key Op.startOp, key Op.stopOp, key Op.restartOp⟩

/-- Witness for C6: on `demoReg` (names `"a"`, `"b"`) the name `"zzz"`
matches nothing and all three operations are identities; on the empty
registry they are no-ops as well. -/
theorem no_match_noop_witness :
    (start "zzz" demoReg = demoReg ∧ stop "zzz" demoReg = demoReg ∧
      restart "zzz" demoReg = demoReg) ∧
    restart "zzz" ([] : List (Entry Int)) = [] :=
  ⟨no_match_noop "zzz" demoReg (by decide),
   (no_match_noop "zzz" ([] : List (Entry Int)) (by simp)).2.2⟩

/-- C7: `stop name` applied twice in a row is a total function on every
registry (no error can surface from the lifecycle layer), and on a
counter-based service the double stop simply leaves the counter at
`c - 2` — negative values included. -/
theorem double_stop_total :
    (∀ (σ : Type) (name : String) (entries : List (Entry σ)),
        stop name (stop name entries) =
          entries.map (fun e => stopStep name (stopStep name e))) ∧
    (∀ (nm : String) (c : Int),
        stop nm (stop nm [{ service := counterService nm, state := c }]) =
          [{ service := counterService nm, state := c - 2 }]) := by
  constructor
  · intro σ name entries
    rw [stop_eq_map, stop_eq_map, List.map_map]
    rfl
  · intro nm c
    simp only [stop, counterService, beq_self_eq_true, if_true]
    simp [Service.stop, counterService]
    omega

/-- C8: no lifecycle operation and neither hook inserts, removes or
reorders registry entries: the sequence of service objects in the registry
is identical before and after every call. -/
theorem registry_immutable :
    (∀ (σ : Type) (op : Op) (name : String) (entries : List (Entry σ)),
        (dispatch op name entries).map Entry.service = entries.map Entry.service) ∧
    (∀ (σ : Type) (entries : List (Entry σ)),
        (init entries).map Entry.service = entries.map Entry.service ∧
        (deinit entries).map Entry.service = entries.map Entry.service) := by
  constructor
  · intro σ op name entries
    rw [dispatch_eq_map, List.map_map]
    apply List.map_congr_left
    intro e _
    simp only [Function.comp_apply, opStep]
    split <;> rfl
  · intro σ entries
    constructor
    · rw [init_eq_map, List.map_map]
      rfl
    · rw [deinit_eq_map, List.map_map]
      rfl

/-- C9: the relational loop semantics of each toplevel operation is
deterministic — two runs from the same registry contents and service
states produce identical final states — and the embedded functions realise
that relation. -/
theorem lifecycle_deterministic :
    (∀ (σ : Type) (op : Op) (name : String) (entries r1 r2 : List (Entry σ)),
        RunRel op name entries r1 → RunRel op name entries r2 → r1 = r2) ∧
    (∀ (σ : Type) (op : Op) (name : String) (entries : List (Entry σ)),
        RunRel op name entries (dispatch op name entries)) := by
  constructor
  · intro σ op name entries r1 r2 h1 h2
    induction h1 generalizing r2 with
    | nil => cases h2; rfl
    | consHit e hname _ ih =>
      cases h2 with
      | consHit _ hname2 hrest2 => rw [ih _ hrest2]
      | consSkip _ hne2 _ => exact absurd hname hne2
    | consSkip e hne _ ih =>
      cases h2 with
      | consHit _ hname2 _ => exact absurd hname2 hne
      | consSkip _ _ hrest2 => rw [ih _ hrest2]
  · intro σ op name entries
    induction entries with
    | nil =>
      have : dispatch op name ([] : List (Entry σ)) = [] := by
        rw [dispatch_eq_map]; rfl
      rw [this]
      exact RunRel.nil
    | cons e rest ih =>
      by_cases h : e.service.name = name
      · have hstep : dispatch op name (e :: rest) =
            { e with state := applyOp op e.service e.state } :: dispatch op name rest := by
          rw [dispatch_eq_map, dispatch_eq_map]
          simp [opStep, h]
        rw [hstep]
        exact RunRel.consHit e h ih
      · have hstep : dispatch op name (e :: rest) = e :: dispatch op name rest := by
          rw [dispatch_eq_map, dispatch_eq_map]
          simp [opStep, h]
        rw [hstep]
        exact RunRel.consSkip e h ih

/-- Witness for C9: on `demoReg`, any run of the `start "a"` loop agrees
with an explicitly constructed run, pinning down the unique final state. -/
theorem lifecycle_deterministic_witness :
    dispatch Op.startOp "a" demoReg =
      [{ service := counterService "a", state := (0 : Int) + 1 },
       { service := counterService "b", state := (5 : Int) }] :=
  lifecycle_deterministic.1 Int Op.startOp "a" demoReg _ _
    (lifecycle_deterministic.2 Int Op.startOp "a" demoReg)
    (RunRel.consHit _ rfl (RunRel.consSkip _ (by decide) RunRel.nil))

/-- C10: when at most one registry entry matches the name and every
matching entry uses the trait's default `restart`, the toplevel
`restart name` produces exactly the final state of toplevel `stop name`
followed by toplevel `start name`. -/
theorem restart_refines_stop_start (name : String) (entries : List (Entry σ))
    (_hcount : (entries.filter (fun e => e.service.name == name)).length ≤ 1)
    (hdef : ∀ e ∈ entries, e.service.name = name →
      e.service.restartOverride = none) :
    restart name entries = start name (stop name entries) := by
  rw [restart_eq_map, start_eq_map, stop_eq_map, List.map_map]
  apply List.map_congr_left
  intro e he
  by_cases h : e.service.name = name
  · have hnone := hdef e he h
    simp [restartStep, startStep, stopStep, Function.comp, h, Service.restart,
      hnone, Service.start, Service.stop]
  · simp [restartStep, startStep, stopStep, Function.comp, h]

/-- Witness for C10: on `demoReg` exactly one entry is named `"a"`, it uses
the default restart, and `restart "a"` equals `stop "a"` then
`start "a"`. -/
theorem restart_refines_stop_start_witness :
    restart "a" demoReg = start "a" (stop "a" demoReg) :=
  restart_refines_stop_start "a" demoReg (by decide)
    (by simp [demoReg, counterService])

end CompanionService
